import Mathlib

/-!
Verification of the `async-jaeger` core: the leaky-bucket `RateLimiter`
(`src/async_jaeger/rate_limiter.py`) and, modelled from the specification,
the drop behaviour of the batching reporter and the fan-out/join of the
composite reporter (their sources are not in the repository snapshot; only tests
are).

The Python floats are embedded as exact rationals (`ℚ`); timestamps are
rationals as well, passed explicitly to each operation in place of the
ambient `time.time()` clock.
-/

/-- State of `RateLimiter` (rate_limiter.py): fields `credits_per_second`,
`max_balance`, `balance`, `last_tick`, all Python floats / timestamps,
embedded as `ℚ`. -/
structure RateLimiter where
  credits_per_second : ℚ
  max_balance : ℚ
  balance : ℚ
  last_tick : ℚ
  deriving DecidableEq, Repr

/-- `RateLimiter.__init__(credits_per_second, max_balance)`: stores the two
parameters, sets `balance = max_balance * random.random()` and
`last_tick = timestamp()`.  The random draw `random.random()` (uniform in
`[0, 1)`) is passed in as the explicit argument `u`, and the constructor-time
clock reading as `t`. -/
def RateLimiter.init (credits_per_second max_balance u t : ℚ) : RateLimiter :=
  { credits_per_second := credits_per_second
    max_balance := max_balance
    balance := max_balance * u
    last_tick := t }

/-- `RateLimiter._update_balance()` at clock reading `t`:
`elapsed_time = current_time - self.last_tick` (no clamping below zero),
`last_tick = current_time`, `balance += elapsed_time * credits_per_second`,
then clamp from above only: `if balance > max_balance: balance = max_balance`. -/
def RateLimiter.updateBalance (t : ℚ) (s : RateLimiter) : RateLimiter :=
  let elapsed_time := t - s.last_tick
  let b := s.balance + elapsed_time * s.credits_per_second
  { s with
    last_tick := t
    balance := if b > s.max_balance then s.max_balance else b }

/-- `RateLimiter.check_credit(item_cost)` at clock reading `t`: calls
`_update_balance()`, then if `balance >= item_cost` subtracts the cost and
returns `True`, else returns `False` with the balance unchanged. -/
def RateLimiter.check_credit (t item_cost : ℚ) (s : RateLimiter) :
    Bool × RateLimiter :=
  let s' := s.updateBalance t
  if s'.balance ≥ item_cost then
    (true, { s' with balance := s'.balance - item_cost })
  else
    (false, s')

/-- `RateLimiter.update(credits_per_second, max_balance)` at clock reading
`t`: calls `_update_balance()`, stores the new rate, rescales
`balance = max_balance * balance / self.max_balance` (Python float division:
raises `ZeroDivisionError` when the old `max_balance` is zero, embedded as
`none`), then stores the new `max_balance`. -/
def RateLimiter.update (t credits_per_second max_balance : ℚ)
    (s : RateLimiter) : Option RateLimiter :=
  let s' := s.updateBalance t
  if s'.max_balance = 0 then none
  else some
    { credits_per_second := credits_per_second
      max_balance := max_balance
      balance := max_balance * s'.balance / s'.max_balance
      last_tick := s'.last_tick }

/-- One external call to a `RateLimiter`, tagged with the clock reading the
call observes. -/
inductive RLCall where
  | check (t item_cost : ℚ)
  | upd (t credits_per_second max_balance : ℚ)
  deriving DecidableEq, Repr

/-- The clock reading a call observes. -/
def RLCall.time : RLCall → ℚ
  | .check t _ => t
  | .upd t _ _ => t

/-- Execute one call (the Boolean result of `check_credit` is discarded;
`update` can fail with `ZeroDivisionError`, hence `Option`). -/
def RateLimiter.step (s : RateLimiter) : RLCall → Option RateLimiter
  | .check t c => some (s.check_credit t c).2
  | .upd t r m => s.update t r m

/-- Execute a finite sequence of calls left to right. -/
def RateLimiter.runCalls (s : RateLimiter) : List RLCall → Option RateLimiter
  | [] => some s
  | c :: cs => (s.step c).bind fun s' => s'.runCalls cs

/-- The data-model invariant of the spec: `0 <= balance <= max_balance`,
together with the configuration constraints (`max_balance > 0`, nonnegative
rate) under which it is preserved. -/
def RateLimiter.Inv (s : RateLimiter) : Prop :=
  0 ≤ s.balance ∧ s.balance ≤ s.max_balance ∧ 0 < s.max_balance ∧
    0 ≤ s.credits_per_second

/-- A call is well formed when its arguments respect the configuration
surface: a `check_credit` cost is nonnegative, an `update` receives a
positive rate and a positive maximum. -/
def RLCall.ok : RLCall → Prop
  | .check _ c => 0 ≤ c
  | .upd _ r m => 0 < r ∧ 0 < m

/-- `CallsWF t0 cs`: the calls in `cs` observe non-decreasing clock readings
starting from `t0`, and each call is well formed (`RLCall.ok`). -/
def CallsWF : ℚ → List RLCall → Prop
  | _, [] => True
  | t0, c :: cs => t0 ≤ c.time ∧ c.ok ∧ CallsWF c.time cs

/-- Only the positivity constraints on `update` parameters (no constraint at
all on `check_credit` costs or on timestamps). -/
def RLCall.paramsPos : RLCall → Prop
  | .check _ _ => True
  | .upd _ r m => 0 < r ∧ 0 < m

/-- Modelled from the spec: the state machine of the batching reporter has states
`Open → Closing → Closed` (the reporter source is not in the repository
snapshot; only its tests are). -/
inductive ReporterState where
  | Open
  | Closing
  | Closed
  deriving DecidableEq, Repr

/-- Modelled from the spec: the `BoundedSpanQueue`, a fixed-capacity FIFO of
spans (span values are opaque, type `α`). -/
structure SpanQueue (α : Type) where
  items : List α
  capacity : ℕ
  deriving DecidableEq, Repr

/-- Modelled from the spec: `try_enqueue(item) -> bool` is non-blocking and
returns false immediately if the queue is at capacity. -/
def SpanQueue.try_enqueue {α : Type} (q : SpanQueue α) (x : α) :
    Bool × SpanQueue α :=
  if q.items.length < q.capacity then (true, ⟨q.items ++ [x], q.capacity⟩)
  else (false, q)

/-- Modelled from the spec: the caller-visible state of the batching
reporter — its state-machine state, its bounded queue, and the value of the
`reporter_spans.result_dropped` counter. -/
structure BatchingReporter (α : Type) where
  state : ReporterState
  queue : SpanQueue α
  dropped : ℕ
  deriving DecidableEq, Repr

/-- Modelled from the spec: `report_span(span)`: if the state is `Closed`
(or `Closing` — the spec says `report_span` still drops while `Closing`),
immediately emits the dropped counter and returns; otherwise attempts
`try_enqueue` and on failure (queue full) emits the dropped counter.  A
total function: it never blocks and never raises. -/
def BatchingReporter.report_span {α : Type} (r : BatchingReporter α)
    (x : α) : BatchingReporter α :=
  match r.state with
  | .Open =>
    let eq := r.queue.try_enqueue x
    if eq.1 then { r with queue := eq.2 }
    else { r with dropped := r.dropped + 1 }
  | _ => { r with dropped := r.dropped + 1 }

/-- Modelled from the spec: a call of the `Reporter` interface other than
`close` — `set_process` (its argument triple opaque, type `β`) or
`report_span` (span opaque, type `α`). -/
inductive ReporterOp (α β : Type) where
  | setProcess (p : β)
  | reportSpan (x : α)
  deriving DecidableEq, Repr

/-- Modelled from the spec: a child reporter, observed through the log of
interface calls it has received; an entry `(n, op)` records that the child
received `op` as the `n`-th dispatch issued by the composite. -/
structure ChildReporter (α β : Type) where
  log : List (ℕ × ReporterOp α β)
  deriving DecidableEq, Repr

/-- Modelled from the spec: `CompositeReporter.set_process` and
`report_span` call the same operation on every child, synchronously, in the
order the children are held.  The counter `n` numbers the dispatches
globally, making the dispatch order observable in the logs. -/
def CompositeReporter.fanOut {α β : Type} (op : ReporterOp α β) :
    List (ChildReporter α β) → ℕ → List (ChildReporter α β) × ℕ
  | [], n => ([], n)
  | c :: cs, n =>
    let r := fanOut op cs (n + 1)
    (⟨c.log ++ [(n, op)]⟩ :: r.1, r.2)

/-- Modelled from the spec: `CompositeReporter.set_process`. -/
def CompositeReporter.set_process {α β : Type} (p : β)
    (cs : List (ChildReporter α β)) : List (ChildReporter α β) :=
  (CompositeReporter.fanOut (.setProcess p) cs 0).1

/-- Modelled from the spec: `CompositeReporter.report_span`. -/
def CompositeReporter.report_span {α β : Type} (x : α)
    (cs : List (ChildReporter α β)) : List (ChildReporter α β) :=
  (CompositeReporter.fanOut (.reportSpan x) cs 0).1

/-- Modelled from the spec: a completion either resolves at instant `t`
with a success flag `ok` (`some (t, ok)`; a child close that fails still
resolves, with `ok = false`), or is forever pending (`none`). -/
abbrev Completion := Option (ℕ × Bool)

/-- Whether the completion has resolved by instant `u`. -/
def Completion.resolvedAt (c : Completion) (u : ℕ) : Bool :=
  match c with
  | some p => decide (p.1 ≤ u)
  | none => false

/-- The join of one child completion with the join of the remaining ones:
pending if either side is pending, otherwise resolved at the later of the
two instants, successful only if both sides are. -/
def closeJoin : Completion → Completion → Completion
  | some p, some q => some (max p.1 q.1, p.2 && q.2)
  | _, _ => none

/-- Modelled from the spec: `CompositeReporter.close()` invokes `close()`
on every child and returns a completion that resolves only when all child
completions resolve (fan-out/join): it resolves at the latest child
resolution instant, succeeds only if every child succeeded, and is pending
forever if any child is. -/
def CompositeReporter.close : List Completion → Completion
  | [] => some (0, true)
  | c :: cs => closeJoin c (close cs)

theorem clamp_eq_min (b m : ℚ) : (if b > m then m else b) = min b m := by
  rcases le_or_lt b m with h | h
  · simp [min_eq_left h, not_lt.mpr h]
  · simp [min_eq_right h.le, h]

/-- `_update_balance` replenishes to exactly `min (b + (t - t0) * r) m` and
advances the tick. -/
theorem updateBalance_eq (s : RateLimiter) (t : ℚ) :
    s.updateBalance t =
      { s with
        last_tick := t
        balance :=
          min (s.balance + (t - s.last_tick) * s.credits_per_second)
            s.max_balance } := by
  simp only [RateLimiter.updateBalance, clamp_eq_min]

/-- Full characterization of `check_credit` (helper shared by several
results below). -/
theorem check_credit_eq (s : RateLimiter) (t c : ℚ) :
    s.check_credit t c =
      (decide (min (s.balance + (t - s.last_tick) * s.credits_per_second)
          s.max_balance ≥ c),
       { s with
         last_tick := t
         balance :=
           if min (s.balance + (t - s.last_tick) * s.credits_per_second)
               s.max_balance ≥ c then
             min (s.balance + (t - s.last_tick) * s.credits_per_second)
               s.max_balance - c
           else
             min (s.balance + (t - s.last_tick) * s.credits_per_second)
               s.max_balance }) := by
  simp only [RateLimiter.check_credit, updateBalance_eq]
  by_cases h :
      min (s.balance + (t - s.last_tick) * s.credits_per_second)
        s.max_balance ≥ c
  · simp [h]
  · simp [h]

/-- C1: `check_credit(c)` at time `t` first sets the balance to
`min (b + (t - t0) * r) m` and `last_tick` to `t`; it returns `true` and
subtracts `c` from the balance iff the replenished balance is `≥ c`, and
otherwise returns `false` leaving the replenished balance unchanged — in
particular, after waiting `t - t0` seconds with no intervening calls, the
call grants iff `min (b + r * (t - t0)) m ≥ c`. -/
theorem check_credit_spec (s : RateLimiter) (t c : ℚ) :
    s.check_credit t c =
      (decide (min (s.balance + (t - s.last_tick) * s.credits_per_second)
          s.max_balance ≥ c),
       { s with
         last_tick := t
         balance :=
           if min (s.balance + (t - s.last_tick) * s.credits_per_second)
               s.max_balance ≥ c then
             min (s.balance + (t - s.last_tick) * s.credits_per_second)
               s.max_balance - c
           else
             min (s.balance + (t - s.last_tick) * s.credits_per_second)
               s.max_balance }) :=
  check_credit_eq s t c

/-- Characterization of `update` when the old maximum is nonzero (helper
shared by several results below). -/
theorem update_eq (s : RateLimiter) (t r2 m2 : ℚ)
    (hm : s.max_balance ≠ 0) :
    s.update t r2 m2 = some
      { credits_per_second := r2
        max_balance := m2
        balance :=
          m2 * (min (s.balance + (t - s.last_tick) * s.credits_per_second)
              s.max_balance) / s.max_balance
        last_tick := t } := by
  simp [RateLimiter.update, updateBalance_eq, hm]

/-- C3: `update(r2, m2)` replenishes exactly as `check_credit` does, then in
one step sets `balance` to `m2 * b / m1` (with `b` the replenished balance
and `m1` the old maximum), the rate to `r2`, and the maximum to `m2`; in
particular when no time has elapsed since the last tick the new balance is
`m2 * balance_before / m1`, preserving the fill fraction. -/
theorem update_spec (s : RateLimiter) (t r2 m2 : ℚ)
    (hm : 0 < s.max_balance) :
    s.update t r2 m2 = some
      { credits_per_second := r2
        max_balance := m2
        balance :=
          m2 * (min (s.balance + (t - s.last_tick) * s.credits_per_second)
              s.max_balance) / s.max_balance
        last_tick := t } ∧
    (s.balance ≤ s.max_balance →
      s.update s.last_tick r2 m2 = some
        { credits_per_second := r2
          max_balance := m2
          balance := m2 * s.balance / s.max_balance
          last_tick := s.last_tick }) := by
  constructor
  · simp [RateLimiter.update, updateBalance_eq, hm.ne']
  · intro hb
    simp [RateLimiter.update, updateBalance_eq, hm.ne', min_eq_left hb]

/-- Witness for C3 at the state `⟨r = 1, m = 2, b = 1, t0 = 0⟩` with
`update(3, 4)` at the unchanged clock reading `0`. -/
theorem update_spec_witness :
    0 < (⟨1, 2, 1, 0⟩ : RateLimiter).max_balance ∧
    (⟨1, 2, 1, 0⟩ : RateLimiter).balance ≤
      (⟨1, 2, 1, 0⟩ : RateLimiter).max_balance ∧
    RateLimiter.update 0 3 4 ⟨1, 2, 1, 0⟩ = some ⟨3, 4, 2, 0⟩ := by
  refine ⟨by norm_num, by norm_num, ?_⟩
  have h := (update_spec ⟨1, 2, 1, 0⟩ 0 3 4 (by norm_num)).2 (by norm_num)
  norm_num at h
  exact h

/-- C6: `_update_balance` computes the elapsed time as `t - last_tick`
without clamping it to be nonnegative and clamps the balance from above
only; concretely, on the state `⟨r = 1, m = 1, b = 0, t0 = 10⟩` a single
`check_credit(1)` at the earlier clock reading `5` leaves `balance = -5 < 0`. -/
theorem updateBalance_no_lower_clamp :
    (∀ (s : RateLimiter) (t : ℚ),
      (s.updateBalance t).balance =
        min (s.balance + (t - s.last_tick) * s.credits_per_second)
          s.max_balance ∧
      (s.updateBalance t).last_tick = t) ∧
    (RateLimiter.check_credit 5 1 ⟨1, 1, 0, 10⟩).2.balance < 0 := by
  constructor
  · intro s t
    rw [updateBalance_eq]
    exact ⟨rfl, rfl⟩
  · rw [check_credit_eq]
    norm_num [min_def]

/-- C7: the constructor stores the two parameters, sets `last_tick` to the
construction-time clock reading and `balance` to `max_balance * u` with `u`
the uniform draw from `[0, 1)`; hence for `max_balance > 0` the initial
balance lies in `[0, max_balance)`. -/
theorem init_spec (r m u t : ℚ) (hm : 0 < m) (h0 : 0 ≤ u) (h1 : u < 1) :
    (RateLimiter.init r m u t).credits_per_second = r ∧
    (RateLimiter.init r m u t).max_balance = m ∧
    (RateLimiter.init r m u t).last_tick = t ∧
    (RateLimiter.init r m u t).balance = m * u ∧
    0 ≤ (RateLimiter.init r m u t).balance ∧
    (RateLimiter.init r m u t).balance < m := by
  refine ⟨rfl, rfl, rfl, rfl, mul_nonneg hm.le h0, ?_⟩
  calc m * u < m * 1 := by exact (mul_lt_mul_left hm).mpr h1
    _ = m := mul_one m

/-- Witness for C7 at `r = 3`, `m = 2`, `u = 1/2`, `t = 7`. -/
theorem init_spec_witness :
    0 < (2 : ℚ) ∧ 0 ≤ (1 / 2 : ℚ) ∧ (1 / 2 : ℚ) < 1 ∧
    (0 ≤ (RateLimiter.init 3 2 (1 / 2) 7).balance ∧
      (RateLimiter.init 3 2 (1 / 2) 7).balance < 2) := by
  have h := init_spec 3 2 (1 / 2) 7 (by norm_num) (by norm_num) (by norm_num)
  exact ⟨by norm_num, by norm_num, by norm_num, h.2.2.2.2⟩

/-- C9: `check_credit` does not restrict the cost to be nonnegative: when
`c < 0` and the replenished balance `b` satisfies `b ≥ c`, the call returns
`true` and sets the balance to `b - c > b` with no re-clamp; concretely, on
`⟨r = 0, m = 1, b = 1, t0 = 0⟩` the call `check_credit(-1)` at clock `0`
leaves `balance = 2`, strictly above `max_balance = 1`. -/
theorem check_credit_negative_cost :
    (∀ (s : RateLimiter) (t c : ℚ), c < 0 →
      min (s.balance + (t - s.last_tick) * s.credits_per_second)
          s.max_balance ≥ c →
      (s.check_credit t c).1 = true ∧
      (s.check_credit t c).2.balance =
        min (s.balance + (t - s.last_tick) * s.credits_per_second)
          s.max_balance - c ∧
      min (s.balance + (t - s.last_tick) * s.credits_per_second)
          s.max_balance <
        (s.check_credit t c).2.balance) ∧
    (RateLimiter.check_credit 0 (-1) ⟨0, 1, 1, 0⟩).2.max_balance <
      (RateLimiter.check_credit 0 (-1) ⟨0, 1, 1, 0⟩).2.balance := by
  constructor
  · intro s t c hc hb
    rw [check_credit_eq]
    refine ⟨by simp [hb], by simp [hb], ?_⟩
    simp only [hb, if_true]
    linarith
  · rw [check_credit_eq]
    norm_num [min_def]

/-- Witness for C9 at the state `⟨r = 0, m = 1, b = 1, t0 = 0⟩`, clock `0`,
cost `-1`. -/
theorem check_credit_negative_cost_witness :
    (-1 : ℚ) < 0 ∧
    min ((1 : ℚ) + ((0 : ℚ) - 0) * 0) 1 ≥ (-1 : ℚ) ∧
    ((RateLimiter.check_credit 0 (-1) ⟨0, 1, 1, 0⟩).1 = true ∧
      (RateLimiter.check_credit 0 (-1) ⟨0, 1, 1, 0⟩).2.balance =
        min ((1 : ℚ) + ((0 : ℚ) - 0) * 0) 1 - (-1) ∧
      min ((1 : ℚ) + ((0 : ℚ) - 0) * 0) 1 <
        (RateLimiter.check_credit 0 (-1) ⟨0, 1, 1, 0⟩).2.balance) := by
  refine ⟨by norm_num, by norm_num, ?_⟩
  exact check_credit_negative_cost.1 ⟨0, 1, 1, 0⟩ 0 (-1) (by norm_num)
    (by norm_num)

/-- Replenishing preserves the invariant when the clock has not moved
backwards. -/
theorem updateBalance_Inv (s : RateLimiter) (t : ℚ) (h : s.Inv)
    (ht : s.last_tick ≤ t) : (s.updateBalance t).Inv := by
  obtain ⟨hb0, hbm, hm, hr⟩ := h
  have hE : 0 ≤ (t - s.last_tick) * s.credits_per_second :=
    mul_nonneg (by linarith) hr
  rw [updateBalance_eq]
  exact ⟨le_min (by linarith) hm.le, min_le_right _ _, hm, hr⟩

/-- `check_credit` preserves the invariant for a nonnegative cost and a
non-retreating clock. -/
theorem check_credit_Inv (s : RateLimiter) (t c : ℚ) (h : s.Inv)
    (ht : s.last_tick ≤ t) (hc : 0 ≤ c) :
    ((s.check_credit t c).2).Inv := by
  obtain ⟨hb0, hbm, hm, hr⟩ := h
  have hE : 0 ≤ (t - s.last_tick) * s.credits_per_second :=
    mul_nonneg (by linarith) hr
  have hmin0 : 0 ≤ min (s.balance + (t - s.last_tick) * s.credits_per_second)
      s.max_balance := le_min (by linarith) hm.le
  have hmin1 : min (s.balance + (t - s.last_tick) * s.credits_per_second)
      s.max_balance ≤ s.max_balance := min_le_right _ _
  rw [check_credit_eq]
  simp only [RateLimiter.Inv]
  split_ifs with hg
  · exact ⟨by linarith, by linarith, hm, hr⟩
  · exact ⟨hmin0, hmin1, hm, hr⟩

/-- `update` with positive parameters preserves the invariant for a
non-retreating clock. -/
theorem update_Inv (s : RateLimiter) (t r2 m2 : ℚ) (h : s.Inv)
    (ht : s.last_tick ≤ t) (hr2 : 0 < r2) (hm2 : 0 < m2) :
    ∀ s', s.update t r2 m2 = some s' → s'.Inv := by
  obtain ⟨hb0, hbm, hm, hr⟩ := h
  intro s' hs'
  rw [update_eq s t r2 m2 hm.ne'] at hs'
  obtain rfl := (Option.some.inj hs').symm
  have hE : 0 ≤ (t - s.last_tick) * s.credits_per_second :=
    mul_nonneg (by linarith) hr
  have hmin0 : 0 ≤ min (s.balance + (t - s.last_tick) * s.credits_per_second)
      s.max_balance := le_min (by linarith) hm.le
  have hmin1 : min (s.balance + (t - s.last_tick) * s.credits_per_second)
      s.max_balance ≤ s.max_balance := min_le_right _ _
  refine ⟨div_nonneg (mul_nonneg hm2.le hmin0) hm.le, ?_, hm2, hr2.le⟩
  show m2 * _ / s.max_balance ≤ m2
  rw [div_le_iff₀ hm]
  exact mul_le_mul_of_nonneg_left hmin1 hm2.le

/-- One well-formed step preserves the invariant and leaves `last_tick` at
the clock reading of the call. -/
theorem step_Inv (s : RateLimiter) (c : RLCall) (h : s.Inv)
    (ht : s.last_tick ≤ c.time) (hok : c.ok) :
    ∀ s', s.step c = some s' → s'.Inv ∧ s'.last_tick = c.time := by
  intro s' hs'
  cases c with
  | check t cost =>
    simp only [RateLimiter.step] at hs'
    obtain rfl := (Option.some.inj hs').symm
    refine ⟨check_credit_Inv s t cost h ht hok, ?_⟩
    rw [check_credit_eq]
    rfl
  | upd t r2 m2 =>
    simp only [RateLimiter.step] at hs'
    refine ⟨update_Inv s t r2 m2 h ht hok.1 hok.2 s' hs', ?_⟩
    rw [update_eq s t r2 m2 h.2.2.1.ne'] at hs'
    obtain rfl := (Option.some.inj hs').symm
    rfl

/-- Running any well-formed call sequence from an invariant-satisfying
state keeps the invariant. -/
theorem runCalls_Inv (cs : List RLCall) :
    ∀ s : RateLimiter, s.Inv → CallsWF s.last_tick cs →
      ∀ s', s.runCalls cs = some s' → s'.Inv := by
  induction cs with
  | nil =>
    intro s h _ s' hs'
    simp only [RateLimiter.runCalls] at hs'
    obtain rfl := (Option.some.inj hs').symm
    exact h
  | cons c cs ih =>
    intro s h hwf s' hs'
    simp only [CallsWF] at hwf
    obtain ⟨ht, hok, hwf'⟩ := hwf
    rcases hstep : s.step c with _ | s1
    · rw [RateLimiter.runCalls, hstep] at hs'
      simp at hs'
    · have h1 := step_Inv s c h ht hok s1 hstep
      refine ih s1 h1.1 ?_ s' ?_
      · rw [h1.2]
        exact hwf'
      · rw [RateLimiter.runCalls, hstep] at hs'
        simpa using hs'

/-- C2 (amended): `0 ≤ balance ≤ max_balance` holds after construction and
after every call of any sequence of `check_credit`/`update` calls, provided
the construction parameters are admissible (`0 ≤ r`, `0 < m`, random draw
`u ∈ [0, 1)`), the clock readings are non-decreasing, every `check_credit`
cost is nonnegative and every `update` receives a positive rate and
maximum (`CallsWF`).  As every prefix of a well-formed sequence is itself a
well-formed sequence, instantiating `cs` at each prefix gives the bound at
every observation point.  (The unamended claim, with no conditions on
clock readings or costs, is refuted by `balance_invariant_cex`.) -/
theorem balance_invariant (r m u t : ℚ) (hr : 0 ≤ r) (hm : 0 < m)
    (hu0 : 0 ≤ u) (hu1 : u < 1) (cs : List RLCall) (hwf : CallsWF t cs) :
    (0 ≤ (RateLimiter.init r m u t).balance ∧
      (RateLimiter.init r m u t).balance ≤
        (RateLimiter.init r m u t).max_balance) ∧
    ∀ s', (RateLimiter.init r m u t).runCalls cs = some s' →
      0 ≤ s'.balance ∧ s'.balance ≤ s'.max_balance := by
  have hInv : (RateLimiter.init r m u t).Inv := by
    refine ⟨mul_nonneg hm.le hu0, ?_, hm, hr⟩
    show m * u ≤ m
    nlinarith
  refine ⟨⟨hInv.1, hInv.2.1⟩, fun s' hs' => ?_⟩
  have h := runCalls_Inv cs (RateLimiter.init r m u t) hInv hwf s' hs'
  exact ⟨h.1, h.2.1⟩

/-- Witness for C2 (amended): limiter constructed with `r = 1`, `m = 1`,
`u = 1/2` at clock `0`, then `check_credit(3/4)` at clock `1` and
`update(2, 5)` at clock `2`; the final state is `⟨2, 5, 5, 2⟩`. -/
theorem balance_invariant_witness :
    (0 ≤ (1 : ℚ)) ∧ (0 < (1 : ℚ)) ∧ (0 ≤ (1 / 2 : ℚ)) ∧ ((1 / 2 : ℚ) < 1) ∧
    CallsWF 0 [RLCall.check 1 (3 / 4), RLCall.upd 2 2 5] ∧
    (0 ≤ (5 : ℚ) ∧ (5 : ℚ) ≤ 5) := by
  have hwf : CallsWF 0 [RLCall.check 1 (3 / 4), RLCall.upd 2 2 5] := by
    simp only [CallsWF, RLCall.time, RLCall.ok]
    norm_num
  refine ⟨by norm_num, by norm_num, by norm_num, by norm_num, hwf, ?_⟩
  have hrun :
      RateLimiter.runCalls (RateLimiter.init 1 1 (1 / 2) 0)
        [RLCall.check 1 (3 / 4), RLCall.upd 2 2 5] =
      some ⟨2, 5, 5, 2⟩ := by
    norm_num [RateLimiter.runCalls, RateLimiter.step, RateLimiter.init,
      RateLimiter.check_credit, RateLimiter.updateBalance, RateLimiter.update]
  exact
    (balance_invariant 1 1 (1 / 2) 0 (by norm_num) (by norm_num) (by norm_num)
        (by norm_num) [RLCall.check 1 (3 / 4), RLCall.upd 2 2 5] hwf).2
      ⟨2, 5, 5, 2⟩ hrun

/-- Counterexample to C2 as stated: with no restriction on the clock, a
limiter constructed with `r = 1`, `m = 1`, `u = 1/2` at clock `10` followed
by a single `check_credit(1)` at the earlier clock reading `5` reaches
`balance = -9/2 < 0`. -/
theorem balance_invariant_cex :
    RateLimiter.runCalls (RateLimiter.init 1 1 (1 / 2) 10) [RLCall.check 5 1]
      = some ⟨1, 1, -(9 / 2), 5⟩ ∧
    ¬ (0 ≤ (-(9 / 2) : ℚ)) := by
  constructor
  · norm_num [RateLimiter.runCalls, RateLimiter.step, RateLimiter.init,
      RateLimiter.check_credit, RateLimiter.updateBalance]
  · norm_num

/-- `check_credit` leaves `max_balance` unchanged. -/
theorem check_credit_max (s : RateLimiter) (t c : ℚ) :
    ((s.check_credit t c).2).max_balance = s.max_balance := by
  rw [check_credit_eq]

/-- Running any call sequence whose `update` calls carry positive
parameters from a state with positive `max_balance` never fails. -/
theorem runCalls_isSome (cs : List RLCall) :
    ∀ s : RateLimiter, 0 < s.max_balance →
      (∀ c ∈ cs, c.paramsPos) → (s.runCalls cs).isSome := by
  induction cs with
  | nil =>
    intro s _ _
    simp [RateLimiter.runCalls]
  | cons c cs ih =>
    intro s hm hp
    have hp' : ∀ c ∈ cs, RLCall.paramsPos c := fun c hc =>
      hp c (List.mem_cons_of_mem _ hc)
    cases c with
    | check t cost =>
      rw [RateLimiter.runCalls]
      simp only [RateLimiter.step, Option.some_bind]
      refine ih _ ?_ hp'
      rw [check_credit_max]
      exact hm
    | upd t r2 m2 =>
      have hpos := hp _ (List.mem_cons_self _ _)
      rw [RateLimiter.runCalls]
      simp only [RateLimiter.step]
      rw [update_eq s t r2 m2 hm.ne']
      simp only [Option.some_bind]
      exact ih _ hpos.2 hp'

/-- C8: under the configuration precondition that the constructor and every
`update` call receive a positive rate and a positive maximum, every finite
sequence of `check_credit`/`update` calls is total — no error is raised for
any `item_cost` and any clock readings; in particular the division inside
`update` always divides by a strictly positive old `max_balance`, so the
`ZeroDivisionError` branch (`none`) is unreachable. -/
theorem no_error_spec (r m u t : ℚ) (cs : List RLCall) (hm : 0 < m)
    (hcs : ∀ c ∈ cs, c.paramsPos) :
    ((RateLimiter.init r m u t).runCalls cs).isSome ∧
    ∀ (s : RateLimiter) (t' r2 m2 : ℚ), 0 < s.max_balance →
      (s.update t' r2 m2).isSome := by
  constructor
  · exact runCalls_isSome cs _ hm hcs
  · intro s t' r2 m2 hms
    rw [update_eq s t' r2 m2 hms.ne']
    rfl

/-- Witness for C8: a limiter built with `m = 1 > 0` runs
`check_credit(-3)` at clock `0` followed by `update(2, 3)` at the earlier
clock `-1` without error. -/
theorem no_error_spec_witness :
    (0 < (1 : ℚ)) ∧
    (RateLimiter.runCalls (RateLimiter.init 1 1 0 0)
      [RLCall.check 0 (-3), RLCall.upd (-1) 2 3]).isSome := by
  refine ⟨by norm_num, ?_⟩
  refine (no_error_spec 1 1 0 0 [RLCall.check 0 (-3), RLCall.upd (-1) 2 3]
    (by norm_num) ?_).1
  intro c hc
  simp only [List.mem_cons, List.mem_singleton] at hc
  rcases hc with rfl | rfl | h
  · exact trivial
  · exact ⟨by norm_num, by norm_num⟩
  · exact absurd h (List.not_mem_nil c)

/-- C10 (amended): for `m1 = max_balance > 0`, `m2 > 0` and a clock that
does not advance, applying `update(r2, m2)` a second time leaves the state
of the first application unchanged (idempotence, with no hypothesis on the
balance); and when the state additionally satisfies the upper bound of the
data-model invariant, `balance ≤ max_balance`, `update(r2, m2)` followed by
`update(r1, m1)` restores the balance (and maximum and tick) exactly.
(The unamended round trip, with no bound on the starting balance, is
refuted by `update_round_trip_cex`: the upper clamp inside the
replenishment step loses any balance in excess of `max_balance` — such
states are reachable via negative-cost `check_credit`.) -/
theorem update_round_trip (s : RateLimiter) (r1 r2 m2 : ℚ)
    (hm1 : 0 < s.max_balance) (hm2 : 0 < m2) :
    (s.balance ≤ s.max_balance →
      ((s.update s.last_tick r2 m2).bind fun s1 =>
          s1.update s1.last_tick r1 s.max_balance) =
        some { credits_per_second := r1
               max_balance := s.max_balance
               balance := s.balance
               last_tick := s.last_tick }) ∧
    ((s.update s.last_tick r2 m2).bind fun s1 =>
        s1.update s1.last_tick r2 m2) = s.update s.last_tick r2 m2 := by
  have h1 : s.update s.last_tick r2 m2 =
      some ⟨r2, m2, m2 * min s.balance s.max_balance / s.max_balance,
        s.last_tick⟩ := by
    rw [update_eq s s.last_tick r2 m2 hm1.ne']
    simp
  have hble : m2 * min s.balance s.max_balance / s.max_balance ≤ m2 := by
    rw [div_le_iff₀ hm1]
    exact mul_le_mul_of_nonneg_left (min_le_right _ _) hm2.le
  have h3 : RateLimiter.update s.last_tick r2 m2
      ⟨r2, m2, m2 * min s.balance s.max_balance / s.max_balance,
        s.last_tick⟩ =
      some ⟨r2, m2, m2 * min s.balance s.max_balance / s.max_balance,
        s.last_tick⟩ := by
    rw [update_eq _ s.last_tick r2 m2
      (show (⟨r2, m2, m2 * min s.balance s.max_balance / s.max_balance,
        s.last_tick⟩ : RateLimiter).max_balance ≠ 0 from hm2.ne')]
    simp only [RateLimiter.mk.injEq, Option.some.injEq]
    refine ⟨trivial, trivial, ?_, trivial⟩
    rw [min_eq_left (by simpa using hble)]
    field_simp
    ring
  constructor
  · intro hb
    have h1' : s.update s.last_tick r2 m2 =
        some ⟨r2, m2, m2 * s.balance / s.max_balance, s.last_tick⟩ := by
      rw [h1, min_eq_left hb]
    have hble' : m2 * s.balance / s.max_balance ≤ m2 := by
      rw [div_le_iff₀ hm1]
      exact mul_le_mul_of_nonneg_left hb hm2.le
    have h2 : RateLimiter.update s.last_tick r1 s.max_balance
        ⟨r2, m2, m2 * s.balance / s.max_balance, s.last_tick⟩ =
        some ⟨r1, s.max_balance, s.balance, s.last_tick⟩ := by
      rw [update_eq _ s.last_tick r1 s.max_balance
        (show (⟨r2, m2, m2 * s.balance / s.max_balance, s.last_tick⟩ :
          RateLimiter).max_balance ≠ 0 from hm2.ne')]
      simp only [RateLimiter.mk.injEq, Option.some.injEq]
      refine ⟨trivial, trivial, ?_, trivial⟩
      rw [min_eq_left (by simpa using hble')]
      field_simp
    rw [h1']
    simp only [Option.some_bind]
    exact h2
  · rw [h1]
    simp only [Option.some_bind]
    exact h3

/-- Witness for C10 (amended) at the state `⟨r = 1, m = 2, b = 1, t0 = 0⟩`
with `r2 = 4`, `m2 = 5`, restoring with `r1 = 3`; the idempotence conjunct
is exercised at the over-max state `⟨1, 1, 5/2, 0⟩`, where no balance bound
holds. -/
theorem update_round_trip_witness :
    (0 < (⟨1, 2, 1, 0⟩ : RateLimiter).max_balance) ∧ (0 < (5 : ℚ)) ∧
    ((⟨1, 2, 1, 0⟩ : RateLimiter).balance ≤
      (⟨1, 2, 1, 0⟩ : RateLimiter).max_balance) ∧
    ((RateLimiter.update 0 4 5 ⟨1, 2, 1, 0⟩).bind fun s1 =>
        s1.update s1.last_tick 3 2) = some ⟨3, 2, 1, 0⟩ ∧
    (0 < (⟨1, 1, 5 / 2, 0⟩ : RateLimiter).max_balance) ∧
    ((RateLimiter.update 0 4 5 ⟨1, 1, 5 / 2, 0⟩).bind fun s1 =>
        s1.update s1.last_tick 4 5) =
      RateLimiter.update 0 4 5 ⟨1, 1, 5 / 2, 0⟩ := by
  refine ⟨by norm_num, by norm_num, by norm_num, ?_, by norm_num, ?_⟩
  · exact (update_round_trip ⟨1, 2, 1, 0⟩ 3 4 5 (by norm_num)
      (by norm_num)).1 (by norm_num)
  · exact (update_round_trip ⟨1, 1, 5 / 2, 0⟩ 3 4 5 (by norm_num)
      (by norm_num)).2

/-- Counterexample to C10 as stated: the state `⟨1, 1, 5/2, 0⟩` — reachable
from a freshly constructed limiter via one negative-cost `check_credit` —
has `balance = 5/2` above `max_balance = 1`; with `m1 = m2 = 1 > 0` and the
clock pinned at the last tick, `update(1, 1)` twice yields balance `1`, not
`5/2`: the round trip does not restore the balance. -/
theorem update_round_trip_cex :
    RateLimiter.runCalls (RateLimiter.init 1 1 (1 / 2) 0)
        [RLCall.check 0 (-2)] = some ⟨1, 1, 5 / 2, 0⟩ ∧
    ((RateLimiter.update 0 1 1 ⟨1, 1, 5 / 2, 0⟩).bind fun s1 =>
        s1.update s1.last_tick 1 1) = some ⟨1, 1, 1, 0⟩ ∧
    ((5 / 2 : ℚ) ≠ 1) := by
  refine ⟨?_, ?_, by norm_num⟩
  · norm_num [RateLimiter.runCalls, RateLimiter.step, RateLimiter.init,
      RateLimiter.check_credit, RateLimiter.updateBalance]
  · norm_num [RateLimiter.update, RateLimiter.updateBalance]

/-- C4: `report_span` never blocks the caller (it is a total function): if
the reporter state is `Closed` it increments the dropped counter by exactly
one and returns with the queue — hence the set of spans ever delivered —
unchanged; and if the queue is at capacity the non-blocking `try_enqueue`
fails and it likewise increments the dropped counter by exactly one,
leaving the queue unchanged; in neither case is any exception surfaced. -/
theorem report_span_drop {α : Type} (r : BatchingReporter α) (x : α) :
    (r.state = ReporterState.Closed →
      r.report_span x = { r with dropped := r.dropped + 1 }) ∧
    (r.queue.capacity ≤ r.queue.items.length →
      r.report_span x = { r with dropped := r.dropped + 1 }) := by
  obtain ⟨st, q, d⟩ := r
  constructor
  · intro h
    simp only at h
    subst h
    rfl
  · intro h
    simp only at h
    cases st
    · simp [BatchingReporter.report_span, SpanQueue.try_enqueue,
        Nat.not_lt.mpr h]
    · rfl
    · rfl

/-- Witness for C4: a closed reporter with an empty queue, and an open
reporter whose one-slot queue is full, each dropping a span. -/
theorem report_span_drop_witness :
    ((⟨ReporterState.Closed, ⟨[], 1⟩, 0⟩ : BatchingReporter ℕ).state =
      ReporterState.Closed) ∧
    BatchingReporter.report_span
      (⟨ReporterState.Closed, ⟨[], 1⟩, 0⟩ : BatchingReporter ℕ) 5 =
      ⟨ReporterState.Closed, ⟨[], 1⟩, 1⟩ ∧
    ((⟨ReporterState.Open, ⟨[7], 1⟩, 0⟩ :
        BatchingReporter ℕ).queue.capacity ≤
      (⟨ReporterState.Open, ⟨[7], 1⟩, 0⟩ :
        BatchingReporter ℕ).queue.items.length) ∧
    BatchingReporter.report_span
      (⟨ReporterState.Open, ⟨[7], 1⟩, 0⟩ : BatchingReporter ℕ) 5 =
      ⟨ReporterState.Open, ⟨[7], 1⟩, 1⟩ := by
  refine ⟨rfl, ?_, le_refl 1, ?_⟩
  · exact (report_span_drop
      (⟨ReporterState.Closed, ⟨[], 1⟩, 0⟩ : BatchingReporter ℕ) 5).1 rfl
  · exact (report_span_drop
      (⟨ReporterState.Open, ⟨[7], 1⟩, 0⟩ : BatchingReporter ℕ) 5).2
      (le_refl 1)

/-- Closed form of `fanOut`: child `i` receives exactly the dispatched
operation, stamped with sequence number `n + i`. -/
theorem fanOut_eq {α β : Type} (op : ReporterOp α β) :
    ∀ (cs : List (ChildReporter α β)) (n : ℕ),
      CompositeReporter.fanOut op cs n =
        ((cs.zip (List.range' n cs.length)).map
          fun p => ⟨p.1.log ++ [(p.2, op)]⟩, n + cs.length) := by
  intro cs
  induction cs with
  | nil => intro n; rfl
  | cons c cs ih =>
    intro n
    have hz : List.range' n (c :: cs).length
        = n :: List.range' (n + 1) cs.length := rfl
    show (⟨c.log ++ [(n, op)]⟩ :: (CompositeReporter.fanOut op cs (n + 1)).1,
        (CompositeReporter.fanOut op cs (n + 1)).2) = _
    rw [ih (n + 1), hz, List.zip_cons_cons]
    simp only [List.map_cons, List.length_cons, Prod.mk.injEq]
    exact ⟨trivial, by omega⟩

/-- The composite close resolves by instant `u` exactly when every child
completion has resolved by `u` (regardless of the success flags of the
children). -/
theorem close_resolvedAt (u : ℕ) : ∀ css : List Completion,
    Completion.resolvedAt (CompositeReporter.close css) u =
      css.all fun c => Completion.resolvedAt c u := by
  intro css
  induction css with
  | nil =>
    show decide (0 ≤ u) = true
    simp
  | cons c css ih =>
    show Completion.resolvedAt (closeJoin c (CompositeReporter.close css)) u
      = _
    rw [List.all_cons, ← ih]
    generalize CompositeReporter.close css = acc
    rcases c with _ | p <;> rcases acc with _ | q
    · rfl
    · rfl
    · simp [closeJoin, Completion.resolvedAt]
    · by_cases h1 : p.1 ≤ u <;> by_cases h2 : q.1 ≤ u <;>
        simp [closeJoin, Completion.resolvedAt, Nat.max_le, h1, h2]

/-- If every child resolves — failed or not — the composite close
resolves. -/
theorem close_isSome : ∀ css : List Completion,
    (∀ c ∈ css, c.isSome) → (CompositeReporter.close css).isSome := by
  intro css
  induction css with
  | nil => intro _; rfl
  | cons c css ih =>
    intro h
    have hc := h c (List.mem_cons_self _ _)
    have hcs := ih fun c hc => h c (List.mem_cons_of_mem _ hc)
    obtain ⟨p, rfl⟩ := Option.isSome_iff_exists.mp hc
    obtain ⟨q, hq⟩ := Option.isSome_iff_exists.mp hcs
    show (closeJoin (some p) (CompositeReporter.close css)).isSome
    rw [hq]
    rfl

/-- C5: `set_process` and `report_span` dispatch the same operation to
every child, synchronously (each is a single total function application),
in the order the children are held — the log of child `i` gains exactly the
entry `(i, op)`, the global dispatch numbers `0, 1, …` following the held
order; and the composite `close` resolves at an instant exactly when every
child close completion has resolved by that instant — it never resolves
while any child completion is pending — and resolution of a failed child
(`ok = false`) counts like any other, so a close failure of one child does not
prevent awaiting the remaining children. -/
theorem composite_spec (α β : Type) :
    (∀ (p : β) (cs : List (ChildReporter α β)),
      CompositeReporter.set_process p cs =
        (cs.zip (List.range' 0 cs.length)).map
          fun q => ⟨q.1.log ++ [(q.2, ReporterOp.setProcess p)]⟩) ∧
    (∀ (x : α) (cs : List (ChildReporter α β)),
      CompositeReporter.report_span x cs =
        (cs.zip (List.range' 0 cs.length)).map
          fun q => ⟨q.1.log ++ [(q.2, ReporterOp.reportSpan x)]⟩) ∧
    (∀ (css : List Completion) (u : ℕ),
      Completion.resolvedAt (CompositeReporter.close css) u =
        css.all fun c => Completion.resolvedAt c u) ∧
    (∀ css : List Completion, (∀ c ∈ css, c.isSome) →
      (CompositeReporter.close css).isSome) := by
  refine ⟨?_, ?_, fun css u => close_resolvedAt u css, close_isSome⟩
  · intro p cs
    show (CompositeReporter.fanOut (ReporterOp.setProcess p) cs 0).1 = _
    rw [fanOut_eq]
  · intro x cs
    show (CompositeReporter.fanOut (ReporterOp.reportSpan x) cs 0).1 = _
    rw [fanOut_eq]

/-- Witness for C5: two children; `report_span` stamps them `0` and `1` in
held order; close completions `some (3, true)` and `some (5, false)` — the
join is unresolved at instant `4` (child `1` still pending, despite child
`0` having resolved) but resolves even though child `1` fails. -/
theorem composite_spec_witness :
    CompositeReporter.report_span 7
        [(⟨[]⟩ : ChildReporter ℕ ℕ), ⟨[(9, ReporterOp.setProcess 4)]⟩] =
      [⟨[(0, ReporterOp.reportSpan 7)]⟩,
        ⟨[(9, ReporterOp.setProcess 4), (1, ReporterOp.reportSpan 7)]⟩] ∧
    Completion.resolvedAt
        (CompositeReporter.close [some (3, true), some (5, false)]) 4 =
      false ∧
    (Option.isSome (some ((3 : ℕ), true)) ∧
      Option.isSome (some ((5 : ℕ), false))) ∧
    (CompositeReporter.close [some (3, true), some (5, false)]).isSome := by
  refine ⟨?_, ?_, ⟨rfl, rfl⟩, ?_⟩
  · have h := (composite_spec ℕ ℕ).2.1 7
      [(⟨[]⟩ : ChildReporter ℕ ℕ), ⟨[(9, ReporterOp.setProcess 4)]⟩]
    simpa [List.range'] using h
  · have h := (composite_spec ℕ ℕ).2.2.1 [some (3, true), some (5, false)] 4
    simp only [h]
    rfl
  · refine (composite_spec ℕ ℕ).2.2.2 _ ?_
    intro c hc
    simp only [List.mem_cons, List.mem_singleton] at hc
    rcases hc with rfl | rfl | h
    · rfl
    · rfl
    · exact absurd h (List.not_mem_nil c)
